import Mathlib

/-!
Verification development for the Windows router of this repository:
`wgengine/router/router_windows.go` (the `winRouter` lifecycle, the
`firewallTweaker` asynchronous convergence loop and the killswitch toggle)
and `health/health.go` (the status registry).

The Go code is shallowly embedded:

* Pure helpers (`strsEqual`, the `hasdefault` scan, the `needClear` /
  `needProcRule` decisions, the `Tailscale-In` add loop) become Lean
  functions.
* The `firewallTweaker` mutex-guarded state becomes the structure `FT`;
  the interleaving of `set` calls with the `doAsyncSet` goroutine becomes a
  labelled transition system `StepG` on `TState`, whose labels record the
  `netsh` commands issued together with their success.  One transition
  corresponds to one critical section of the Go code (the `set` body, the
  check at the top of the loop, and the remainder of a loop iteration whose
  external command results are supplied as oracle parameters).
* External collaborators (`netsh` invocations, `configureInterface`,
  `dns.Set`, `firewall.EnableFirewall` / `DisableFirewall`,
  `monitorDefaultRoutes`, `os.Executable`) are modelled by explicit
  success/error oracle arguments; the embedding records which collaborator
  calls are issued and threads their results exactly as the source does.
-/

namespace Router

/-- Opaque Go `error` payload (only `nil` / non-`nil` and identity matter). -/
abbrev GoErr := String

/-! ## firewallTweaker state (router_windows.go, lines 164-173) -/

/-- The mutex-guarded fields of `firewallTweaker`:
`didProcRule`, `running`, `known`, `want`, `lastVal`. -/
structure FT where
  didProcRule : Bool
  running : Bool
  known : Bool
  want : List String
  lastVal : List String
deriving DecidableEq, Repr

/-- `strsEqual(a, b)` (router_windows.go, lines 287-297): length check then
element-wise comparison. -/
def strsEqual (a b : List String) : Bool :=
  if a.length != b.length then false
  else (a.zip b).all fun p => p.1 == p.2

/-- `needClear := !ft.known || len(ft.lastVal) > 0 || len(val) == 0`
(router_windows.go, line 223). -/
def needClearOf (ft : FT) (val : List String) : Bool :=
  !ft.known || decide (0 < ft.lastVal.length) || decide (val.length = 0)

/-- Program counter of the `doAsyncSet` goroutine: either at the top of the
loop about to take the lock and re-read `want`, or holding the snapshot
`val` together with the `needClear` / `needProcRule` decisions taken under
the lock, about to run the external commands. -/
inductive LoopPC where
  | top : LoopPC
  | body (val : List String) (needClear : Bool) (needProcRule : Bool) : LoopPC
deriving DecidableEq, Repr

/-- A `firewallTweaker` together with the multiset of currently active
`doAsyncSet` goroutines (kept as a list so that "at most one loop runs" is a
provable invariant rather than a modelling assumption). -/
structure TState where
  ft : FT
  loops : List LoopPC
deriving DecidableEq, Repr

/-- The `netsh advfirewall firewall` commands issued by `doAsyncSet`. -/
inductive Cmd where
  | deleteIn : Cmd
  | deleteProc : Cmd
  | addProc : Cmd
  | addIn (cidr : String) : Cmd
deriving DecidableEq, Repr

/-- `firewallTweaker.set` (router_windows.go, lines 181-199): under the lock
record `want := cidrs`; if no goroutine is running, mark `running` and start
one.  Returns the updated fields and whether a goroutine was spawned. -/
def ftSet (ft : FT) (cidrs : List String) : FT × Bool :=
  if ft.running then ({ ft with want := cidrs }, false)
  else ({ ft with want := cidrs, running := true }, true)

/-- Effect of one `set` call on the whole transition-system state: a spawned
goroutine enters `doAsyncSet` at the top of the loop. -/
def applySet (s : TState) (cidrs : List String) : TState :=
  let p := ftSet s.ft cidrs
  { ft := p.1, loops := if p.2 then s.loops ++ [LoopPC.top] else s.loops }

/-- The locked section at the top of the `doAsyncSet` loop
(router_windows.go, lines 215-225): snapshot `val := ft.want`; if
`ft.known && strsEqual(ft.lastVal, val)` clear `running` and return
(`none`), otherwise compute `needClear` and `needProcRule` and continue into
the loop body (`some`). -/
def doCheck (ft : FT) : FT × Option LoopPC :=
  let val := ft.want
  if ft.known && strsEqual ft.lastVal val then
    ({ ft with running := false }, none)
  else
    (ft, some (LoopPC.body val (needClearOf ft val) (!ft.didProcRule)))

/-- The `Tailscale-In` add loop (router_windows.go, lines 268-278): issue an
add for each CIDR of `val` in order, breaking on the first failure.  `addOk
i` is the oracle result of the add issued for the CIDR at index `i`.
Returns the issued `(cidr, succeeded)` pairs in order and whether `err` was
`nil` when the loop finished. -/
def runAdds (addOk : Nat → Bool) : Nat → List String → List (String × Bool) × Bool
  | _, [] => ([], true)
  | i, c :: rest =>
    if addOk i then
      let r := runAdds addOk (i + 1) rest
      ((c, true) :: r.1, r.2)
    else ([(c, false)], false)

/-- Commands issued by the one-time `Tailscale-Process` section
(router_windows.go, lines 237-267): skipped entirely unless `needProcRule`;
otherwise a best-effort delete, then — only if `os.Executable` succeeded
(`exeOk`) — the add, whose result is `addOk`. -/
def procRuleTrace (npr exeOk delOk addOk : Bool) : List (Cmd × Bool) :=
  if npr then
    (Cmd.deleteProc, delOk) :: (if exeOk then [(Cmd.addProc, addOk)] else [])
  else []

/-- All commands issued by one pass through the body of the `doAsyncSet`
loop, with their oracle results, in program order: the optional
`Tailscale-In` clear, the one-time process-rule section, then the ordered
adds. -/
def iterTrace (ncl npr delInOk delProcOk exeOk procAddOk : Bool)
    (addOk : Nat → Bool) (val : List String) : List (Cmd × Bool) :=
  (if ncl then [(Cmd.deleteIn, delInOk)] else [])
    ++ procRuleTrace npr exeOk delProcOk procAddOk
    ++ (runAdds addOk 0 val).1.map (fun p => (Cmd.addIn p.1, p.2))

/-- State update performed by one pass through the body of the loop
(router_windows.go, lines 261-263 and 281-283): `didProcRule` becomes true
exactly when the process-rule add was attempted and succeeded; then, under
the lock, `lastVal := val` and `known := (err == nil)` where `err` is the
outcome of the add loop. -/
def doBody (ft : FT) (val : List String) (npr exeOk procAddOk : Bool)
    (addOk : Nat → Bool) : FT :=
  { ft with
    didProcRule := ft.didProcRule || (npr && exeOk && procAddOk),
    lastVal := val,
    known := (runAdds addOk 0 val).2 }

/-- One atomic step of the interleaved execution of `set` callers and the
`doAsyncSet` goroutine.  `allowSet` (de)activates `set` steps, so that
"once `SetDesired` calls cease" is the sub-relation with `allowSet = false`;
`reqOk` forces every external command to succeed, giving the sub-relation
used for the convergence claims.  The label lists the commands issued during
the step with their results. -/
inductive StepG (allowSet reqOk : Bool) : TState → List (Cmd × Bool) → TState → Prop where
  | set (s : TState) (cidrs : List String) (hallow : allowSet = true) :
      StepG allowSet reqOk s [] (applySet s cidrs)
  | check (s : TState) (l₁ l₂ : List LoopPC)
      (h : s.loops = l₁ ++ LoopPC.top :: l₂) :
      StepG allowSet reqOk s []
        { ft := (doCheck s.ft).1, loops := l₁ ++ (doCheck s.ft).2.toList ++ l₂ }
  | body (s : TState) (l₁ l₂ : List LoopPC) (val : List String)
      (ncl npr delInOk delProcOk exeOk procAddOk : Bool) (addOk : Nat → Bool)
      (h : s.loops = l₁ ++ LoopPC.body val ncl npr :: l₂)
      (hok : reqOk = true →
        delInOk = true ∧ delProcOk = true ∧ exeOk = true ∧ procAddOk = true ∧
          ∀ i, addOk i = true) :
      StepG allowSet reqOk s (iterTrace ncl npr delInOk delProcOk exeOk procAddOk addOk val)
        { ft := doBody s.ft val npr exeOk procAddOk addOk,
          loops := l₁ ++ LoopPC.top :: l₂ }

/-- Finite executions: reflexive-transitive closure of `StepG`,
concatenating the issued-command labels. -/
inductive Star (allowSet reqOk : Bool) : TState → List (Cmd × Bool) → TState → Prop where
  | refl (s : TState) : Star allowSet reqOk s [] s
  | tail {s : TState} {tr : List (Cmd × Bool)} {s' : TState}
      {tr' : List (Cmd × Bool)} {s'' : TState} :
      Star allowSet reqOk s tr s' → StepG allowSet reqOk s' tr' s'' →
      Star allowSet reqOk s (tr ++ tr') s''

/-- Arbitrary interleavings of `set` calls and loop steps. -/
abbrev Steps := Star true false

/-- Loop-only executions ("`SetDesired` calls have ceased"). -/
abbrev LSteps := Star false false

/-- A single loop-only step in which every external command succeeds. -/
abbrev SLStep := StepG false true

/-- Loop-only executions in which every external command succeeds. -/
abbrev SLSteps := Star false true

/-- The running-flag discipline: the number of active `doAsyncSet`
goroutines is 1 when `running` is set and 0 otherwise. -/
def loopInv (s : TState) : Prop :=
  s.loops.length = (if s.ft.running then 1 else 0)

instance (s : TState) : Decidable (loopInv s) := by
  unfold loopInv; infer_instance

/-- The `needProcRule` snapshot held by an active loop body agrees with the
current `didProcRule` flag (it was read under the same lock and only the
loop itself writes `didProcRule`). -/
def procInv (s : TState) : Prop :=
  ∀ (val : List String) (ncl npr : Bool),
    LoopPC.body val ncl npr ∈ s.loops → npr = !s.ft.didProcRule

/-! ## winRouter (router_windows.go, lines 25-153) -/

/-- An IP prefix as carried by `Config.LocalAddrs` / `Config.Routes`
(`wgcfg.CIDR`): an address string plus a prefix bit-length; bit-length 0 is
the default route. -/
structure CIDR where
  addr : String
  bits : Nat
deriving DecidableEq, Repr

/-- The parts of `router.Config` that `winRouter` reads: `LocalAddrs`,
`Routes` and an opaque DNS payload. -/
structure Config where
  localAddrs : List CIDR
  routes : List CIDR
  dnsCfg : String
deriving DecidableEq, Repr

/-- Modelled from the spec: `shutdownConfig` is defined in the repository's
`router.go`, which is not among the given sources; per the spec a nil
`Config` is "a sentinel shutdown configuration equivalent to all fields
empty". -/
def shutdownConfig : Config := ⟨[], [], ""⟩

/-- `la.String()` for a CIDR (textual form handed to the firewall tweaker). -/
def cidrString (p : CIDR) : String := p.addr ++ "/" ++ toString p.bits

/-- The `hasdefault` scan of `winRouter.Set` (router_windows.go, lines
120-126): some route has bit-length 0. -/
def hasDefaultRoute (routes : List CIDR) : Bool :=
  routes.any fun r => r.bits == 0

/-- The `winRouter` fields the embedded methods touch: the firewall tweaker,
the killswitch flag and the route-change callback handle. -/
structure WinRouter where
  ftState : TState
  wgFirewallEnabled : Bool
  routeChangeCallback : Option Nat
deriving DecidableEq, Repr

/-- Errors returned by `winRouter.Set`: the `configureInterface` error is
returned as is, the DNS error is returned wrapped ("dns set: %w"). -/
inductive SetErr where
  | cfgIface (e : GoErr) : SetErr
  | dnsSet (e : GoErr) : SetErr
deriving DecidableEq, Repr

/-- Results of the collaborator calls a single `winRouter.Set` may issue.
`enableErr` / `disableErr` are only ever logged by the source, never
returned, and do not influence the state update. -/
structure SetOracles where
  cfgIfaceErr : Option GoErr
  dnsErr : Option GoErr
  enableErr : Option GoErr
  disableErr : Option GoErr
deriving DecidableEq, Repr

/-- Collaborator calls issued by `winRouter.Up` / `winRouter.Set`, in
order. -/
inductive REvent where
  | fwSet (cidrs : List String) : REvent
  | configureInterface : REvent
  | dnsSet : REvent
  | enableFirewall : REvent
  | disableFirewall : REvent
  | monitorDefaultRoutes : REvent
deriving DecidableEq, Repr

/-- `winRouter.Set` (router_windows.go, lines 78-140): substitute
`shutdownConfig` for nil, hand the stringified `LocalAddrs` to the firewall
tweaker, then `configureInterface` (propagating its error), then `dns.Set`
(propagating its error wrapped), then the killswitch toggle, whose own
errors are only logged: when `hasdefault` and the flag is clear,
`EnableFirewall` is called and the flag set regardless of its result; when
`!hasdefault` and the flag is set, `DisableFirewall` is called (result
discarded) and the flag cleared. -/
def winRouterSet (r : WinRouter) (cfg? : Option Config) (o : SetOracles) :
    WinRouter × Option SetErr × List REvent :=
  let cfg := cfg?.getD shutdownConfig
  let localAddrs := cfg.localAddrs.map cidrString
  let r := { r with ftState := applySet r.ftState localAddrs }
  let ev := [REvent.fwSet localAddrs, REvent.configureInterface]
  match o.cfgIfaceErr with
  | some e => (r, some (SetErr.cfgIface e), ev)
  | none =>
    let ev := ev ++ [REvent.dnsSet]
    match o.dnsErr with
    | some e => (r, some (SetErr.dnsSet e), ev)
    | none =>
      let hasdefault := hasDefaultRoute cfg.routes
      if hasdefault && !r.wgFirewallEnabled then
        ({ r with wgFirewallEnabled := true }, none, ev ++ [REvent.enableFirewall])
      else if !hasdefault && r.wgFirewallEnabled then
        ({ r with wgFirewallEnabled := false }, none, ev ++ [REvent.disableFirewall])
      else
        (r, none, ev)

/-- `firewallTweaker.clear` (router_windows.go, line 175): `ft.set(nil)`. -/
def ftClear (s : TState) : TState := applySet s []

/-- `winRouter.Up` (router_windows.go, lines 64-76): clear the firewall
tweaker's desired list, then subscribe to default-route changes via
`monitorDefaultRoutes` (repository code outside the given sources, modelled
from the spec as a collaborator returning a handle or an error, the handle
field being nil on error per the Go multiple-return convention); its error
is returned from `Up`. -/
def winRouterUp (r : WinRouter) (mon : Except GoErr Nat) :
    WinRouter × Option GoErr × List REvent :=
  let r := { r with ftState := ftClear r.ftState }
  let ev := [REvent.fwSet [], REvent.monitorDefaultRoutes]
  match mon with
  | .error e => ({ r with routeChangeCallback := none }, some e, ev)
  | .ok h => ({ r with routeChangeCallback := some h }, none, ev)

end Router

namespace Health

/-- Opaque Go `error` payload for the health registry. -/
abbrev Err := String

/-- `m[key] = v` on the Go map `map[string]error`, modelled on an
association list: replace the binding if present, insert otherwise. -/
def mapSet : List (String × Option Err) → String → Option Err → List (String × Option Err)
  | [], k, v => [(k, v)]
  | (k', v') :: rest, k, v =>
    if k' == k then (k, v) :: rest else (k', v') :: mapSet rest k v

/-- `health.set` (health.go, lines 66-88).  `m` is the key→error map (a
present key bound to `none` is a key known to be healthy), `watchers` the
registered watcher handles.  Returns the updated map and the list of
callback invocations `(watcher, key, err)` spawned: none on the initial
unknown→healthy path, none when the nil-ness of the stored error does not
change (though a non-nil error value is still recorded), and one per
registered watcher otherwise. -/
def set (m : List (String × Option Err)) (watchers : List Nat)
    (key : String) (err : Option Err) :
    List (String × Option Err) × List (Nat × String × Option Err) :=
  match m.lookup key with
  | none =>
    if err.isNone then
      (mapSet m key none, [])
    else
      (mapSet m key err, watchers.map fun w => (w, key, err))
  | some old =>
    if old.isNone == err.isNone then
      (if err.isSome then mapSet m key err else m, [])
    else
      (mapSet m key err, watchers.map fun w => (w, key, err))

end Health

/-! ## Helper lemmas about the firewall tweaker transition system -/

namespace Router

theorem strsEqual_iff (a b : List String) : strsEqual a b = true ↔ a = b := by
  induction a generalizing b with
  | nil =>
    cases b with
    | nil => simp [strsEqual]
    | cons y ys => simp [strsEqual]
  | cons x xs ih =>
    cases b with
    | nil => simp [strsEqual]
    | cons y ys =>
      by_cases hl : xs.length = ys.length
      · have h1 : strsEqual (x :: xs) (y :: ys)
            = (x == y && (xs.zip ys).all fun p => p.1 == p.2) := by
          simp [strsEqual, hl]
        have h2 : strsEqual xs ys = ((xs.zip ys).all fun p => p.1 == p.2) := by
          simp [strsEqual, hl]
        rw [h1]
        constructor
        · intro h
          have hx : x = y := by
            have := (Bool.and_eq_true _ _).mp h
            exact eq_of_beq this.1
          have hxs : xs = ys := by
            apply (ih ys).mp
            rw [h2]
            exact ((Bool.and_eq_true _ _).mp h).2
          rw [hx, hxs]
        · intro h
          obtain ⟨hx, hxs⟩ := List.cons.injEq .. ▸ h
          apply (Bool.and_eq_true _ _).mpr
          refine ⟨by simp [hx], ?_⟩
          rw [← h2]
          exact (ih ys).mpr hxs
      · have h1 : strsEqual (x :: xs) (y :: ys) = false := by
          simp [strsEqual]
          intro hc
          omega
        rw [h1]
        simp
        intro _ hxs
        exact hl (by rw [hxs])

theorem strsEqual_self (a : List String) : strsEqual a a = true :=
  (strsEqual_iff a a).mpr rfl

theorem applySet_ft (s : TState) (cidrs : List String) :
    (applySet s cidrs).ft.want = cidrs ∧ (applySet s cidrs).ft.running = true ∧
    (applySet s cidrs).ft.didProcRule = s.ft.didProcRule ∧
    (applySet s cidrs).ft.known = s.ft.known ∧
    (applySet s cidrs).ft.lastVal = s.ft.lastVal := by
  by_cases hr : s.ft.running <;> simp [applySet, ftSet, hr]

theorem applySet_loopInv {s : TState} (h : loopInv s) (cidrs : List String) :
    loopInv (applySet s cidrs) := by
  unfold loopInv at *
  by_cases hr : s.ft.running
  · have h1 : s.loops.length = 1 := by simpa [hr] using h
    simpa [applySet, ftSet, hr] using h1
  · have h0 : s.loops.length = 0 := by simpa [hr] using h
    simp [applySet, ftSet, hr, h0]

theorem applySet_loops_ne {s : TState} (h : loopInv s) (cidrs : List String) :
    (applySet s cidrs).loops ≠ [] := by
  have h1 := applySet_loopInv h cidrs
  have h2 := (applySet_ft s cidrs).2.1
  unfold loopInv at h1
  rw [h2] at h1
  simp at h1
  intro hc
  rw [hc] at h1
  simp at h1

theorem inv_decomp {s : TState} {l₁ l₂ : List LoopPC} {x : LoopPC}
    (hinv : loopInv s) (h : s.loops = l₁ ++ x :: l₂) :
    s.ft.running = true ∧ l₁ = [] ∧ l₂ = [] ∧ s.loops = [x] := by
  unfold loopInv at hinv
  by_cases hr : s.ft.running
  · rw [h] at hinv
    simp [hr] at hinv
    have h1 : l₁ = [] := List.length_eq_zero.mp (by omega)
    have h2 : l₂ = [] := List.length_eq_zero.mp (by omega)
    refine ⟨by simp [hr], h1, h2, ?_⟩
    rw [h, h1, h2]
    rfl
  · rw [h] at hinv
    simp [hr] at hinv

theorem doCheck_exit {ft : FT} (hk : ft.known = true) (he : ft.lastVal = ft.want) :
    doCheck ft = ({ ft with running := false }, none) := by
  simp [doCheck, hk, he, strsEqual_self]

theorem doCheck_cont {ft : FT} (h : ¬(ft.known = true ∧ ft.lastVal = ft.want)) :
    doCheck ft
      = (ft, some (LoopPC.body ft.want (needClearOf ft ft.want) (!ft.didProcRule))) := by
  have hc : (ft.known && strsEqual ft.lastVal ft.want) = false := by
    by_cases hk : ft.known = true
    · have he : ft.lastVal ≠ ft.want := fun hcontra => h ⟨hk, hcontra⟩
      have : strsEqual ft.lastVal ft.want = false := by
        cases hs : strsEqual ft.lastVal ft.want
        · rfl
        · exact absurd ((strsEqual_iff _ _).mp hs) he
      simp [this]
    · simp [Bool.not_eq_true] at hk
      simp [hk]
  simp [doCheck, hc]

theorem doCheck_cond_of_exit {ft : FT} (h : (doCheck ft).2 = none) :
    ft.known = true ∧ ft.lastVal = ft.want := by
  by_cases hc : (ft.known && strsEqual ft.lastVal ft.want) = true
  · obtain ⟨hk, he⟩ := (Bool.and_eq_true _ _).mp hc
    exact ⟨hk, (strsEqual_iff _ _).mp he⟩
  · exfalso
    simp [doCheck, hc] at h

theorem stepG_loopInv {a r : Bool} {s : TState} {tr : List (Cmd × Bool)} {s' : TState}
    (h : StepG a r s tr s') (hinv : loopInv s) : loopInv s' := by
  cases h with
  | set cidrs hallow => exact applySet_loopInv hinv cidrs
  | check l₁ l₂ hdec =>
    obtain ⟨hr, h1, h2, hx⟩ := inv_decomp hinv hdec
    subst h1; subst h2
    by_cases hc : s.ft.known = true ∧ s.ft.lastVal = s.ft.want
    · rw [doCheck_exit hc.1 hc.2]
      unfold loopInv
      simp
    · rw [doCheck_cont hc]
      unfold loopInv
      simp [hr]
  | body l₁ l₂ val ncl npr dI dP eO pA aOk hdec hok =>
    obtain ⟨hr, h1, h2, hx⟩ := inv_decomp hinv hdec
    subst h1; subst h2
    unfold loopInv doBody
    simp [hr]

theorem star_loopInv {a r : Bool} {s : TState} {tr : List (Cmd × Bool)} {s' : TState}
    (h : Star a r s tr s') (hinv : loopInv s) : loopInv s' := by
  induction h with
  | refl => exact hinv
  | tail hstar hstep ih => exact stepG_loopInv hstep ih

theorem stepG_procInv {a r : Bool} {s : TState} {tr : List (Cmd × Bool)} {s' : TState}
    (h : StepG a r s tr s') (hinv : loopInv s) (hp : procInv s) : procInv s' := by
  cases h with
  | set cidrs hallow =>
    intro v c n hm
    by_cases hr : s.ft.running
    · simp [applySet, ftSet, hr] at hm ⊢
      exact hp v c n hm
    · simp [applySet, ftSet, hr] at hm ⊢
      exact hp v c n hm
  | check l₁ l₂ hdec =>
    obtain ⟨hr, h1, h2, hx⟩ := inv_decomp hinv hdec
    subst h1; subst h2
    by_cases hc : s.ft.known = true ∧ s.ft.lastVal = s.ft.want
    · rw [doCheck_exit hc.1 hc.2]
      intro v c n hm
      simp at hm
    · rw [doCheck_cont hc]
      intro v c n hm
      simp at hm ⊢
      exact hm.2.2
  | body l₁ l₂ val ncl npr dI dP eO pA aOk hdec hok =>
    obtain ⟨hr, h1, h2, hx⟩ := inv_decomp hinv hdec
    subst h1; subst h2
    intro v c n hm
    simp at hm

theorem star_procInv {a r : Bool} {s : TState} {tr : List (Cmd × Bool)} {s' : TState}
    (h : Star a r s tr s') (hinv : loopInv s) (hp : procInv s) : procInv s' := by
  induction h with
  | refl => exact hp
  | tail hstar hstep ih => exact stepG_procInv hstep (star_loopInv hstar hinv) ih

theorem lstep_want {r : Bool} {s : TState} {tr : List (Cmd × Bool)} {s' : TState}
    (h : StepG false r s tr s') : s'.ft.want = s.ft.want := by
  cases h with
  | set cidrs hallow => exact Bool.noConfusion hallow
  | check l₁ l₂ hdec =>
    by_cases hc : s.ft.known = true ∧ s.ft.lastVal = s.ft.want
    · rw [doCheck_exit hc.1 hc.2]
    · rw [doCheck_cont hc]
  | body l₁ l₂ val ncl npr dI dP eO pA aOk hdec hok => rfl

theorem lstar_want {r : Bool} {s : TState} {tr : List (Cmd × Bool)} {s' : TState}
    (h : Star false r s tr s') : s'.ft.want = s.ft.want := by
  induction h with
  | refl => rfl
  | tail hstar hstep ih => rw [lstep_want hstep, ih]

theorem star_trans {a r : Bool} {s : TState} {tr₁ : List (Cmd × Bool)} {s' : TState}
    {tr₂ : List (Cmd × Bool)} {s'' : TState}
    (h1 : Star a r s tr₁ s') (h2 : Star a r s' tr₂ s'') :
    Star a r s (tr₁ ++ tr₂) s'' := by
  induction h2 with
  | refl => simpa using h1
  | tail hstar hstep ih =>
    rw [← List.append_assoc]
    exact Star.tail ih hstep

theorem runAdds_allOk {addOk : Nat → Bool} (h : ∀ i, addOk i = true)
    (val : List String) :
    ∀ i, runAdds addOk i val = (val.map (fun c => (c, true)), true) := by
  induction val with
  | nil => intro i; simp [runAdds]
  | cons c rest ih => intro i; simp [runAdds, h i, ih (i + 1)]

theorem from_top {s : TState} (hs : s.loops = [LoopPC.top]) :
    ∃ (tr : List (Cmd × Bool)) (s' : TState), SLSteps s tr s' ∧ s'.loops = [] ∧
      s'.ft.running = false ∧ s'.ft.known = true ∧ s'.ft.lastVal = s.ft.want ∧
      s'.ft.want = s.ft.want := by
  have hs' : s.loops = [] ++ LoopPC.top :: [] := by simpa using hs
  by_cases hc : s.ft.known = true ∧ s.ft.lastVal = s.ft.want
  · refine ⟨[], { ft := (doCheck s.ft).1, loops := [] ++ (doCheck s.ft).2.toList ++ [] },
      Star.tail (Star.refl s) (StepG.check s [] [] hs'), ?_, ?_, ?_, ?_, ?_⟩ <;>
      rw [doCheck_exit hc.1 hc.2] <;> simp [hc.1, hc.2]
  · have hcont := doCheck_cont hc
    have step1 : SLStep s []
        { ft := s.ft,
          loops := [LoopPC.body s.ft.want (needClearOf s.ft s.ft.want) (!s.ft.didProcRule)] } := by
      have h0 := @StepG.check false true s [] [] hs'
      rw [hcont] at h0
      exact h0
    have step2 := @StepG.body false true
      { ft := s.ft,
        loops := [LoopPC.body s.ft.want (needClearOf s.ft s.ft.want) (!s.ft.didProcRule)] }
      [] [] s.ft.want (needClearOf s.ft s.ft.want) (!s.ft.didProcRule)
      true true true true (fun _ => true) rfl
      (fun _ => ⟨rfl, rfl, rfl, rfl, fun _ => rfl⟩)
    have hradds := @runAdds_allOk (fun _ => true) (fun _ => rfl) s.ft.want 0
    have hknown2 : (doBody s.ft s.ft.want (!s.ft.didProcRule) true true (fun _ => true)).known
        = true := by
      simp [doBody, hradds]
    have hlast2 : (doBody s.ft s.ft.want (!s.ft.didProcRule) true true (fun _ => true)).lastVal
        = (doBody s.ft s.ft.want (!s.ft.didProcRule) true true (fun _ => true)).want := by
      simp [doBody]
    have step3 : SLStep
        { ft := doBody s.ft s.ft.want (!s.ft.didProcRule) true true (fun _ => true),
          loops := [LoopPC.top] }
        []
        { ft := { doBody s.ft s.ft.want (!s.ft.didProcRule) true true (fun _ => true)
                    with running := false },
          loops := [] } := by
      have h0 := @StepG.check false true
        { ft := doBody s.ft s.ft.want (!s.ft.didProcRule) true true (fun _ => true),
          loops := [LoopPC.top] } [] [] rfl
      rw [doCheck_exit hknown2 hlast2] at h0
      exact h0
    refine ⟨_, _,
      Star.tail (Star.tail (Star.tail (Star.refl s) step1) step2) step3,
      rfl, rfl, ?_, ?_, ?_⟩ <;> simp [doBody, hradds]

theorem lsteps_exit {r : Bool} :
    ∀ {s : TState} {tr : List (Cmd × Bool)} {s' : TState},
      Star false r s tr s' → loopInv s → s.loops ≠ [] → s'.loops = [] →
      s'.ft.known = true ∧ s'.ft.lastVal = s.ft.want ∧ s'.ft.want = s.ft.want := by
  intro s tr s' h
  induction h with
  | refl => intro _ hne hdone; exact absurd hdone hne
  | tail hstar hstep ih =>
    rename_i trA sm trB sfin
    intro hinv hne hdone
    have hinvm := star_loopInv hstar hinv
    have hwm := lstar_want hstar
    cases hstep with
    | set cidrs hallow => exact Bool.noConfusion hallow
    | check l₁ l₂ hdec =>
      obtain ⟨hr, h1, h2, hx⟩ := inv_decomp hinvm hdec
      subst h1; subst h2
      cases hop : (doCheck sm.ft).2 with
      | none =>
        obtain ⟨hk, he⟩ := doCheck_cond_of_exit hop
        rw [doCheck_exit hk he]
        refine ⟨hk, ?_, ?_⟩ <;> simp [he, hwm]
      | some pc =>
        rw [hop] at hdone
        simp at hdone
    | body l₁ l₂ val ncl npr dI dP eO pA aOk hdec hok =>
      simp at hdone

theorem singleton_decomp {α : Type} {l₁ l₂ : List α} {x a : α}
    (h : l₁ ++ x :: l₂ = [a]) : l₁ = [] ∧ x = a ∧ l₂ = [] := by
  cases l₁ <;> simp_all

theorem slstep_deterministic {s : TState} {pc : LoopPC}
    (hs : s.loops = [pc]) {tr₁ : List (Cmd × Bool)} {s₁ : TState}
    {tr₂ : List (Cmd × Bool)} {s₂ : TState}
    (h1 : SLStep s tr₁ s₁) (h2 : SLStep s tr₂ s₂) : tr₁ = tr₂ ∧ s₁ = s₂ := by
  cases h1 with
  | set cidrs hallow => exact Bool.noConfusion hallow
  | check l₁ l₂ hdec =>
    obtain ⟨e1, e2, e3⟩ := singleton_decomp (hdec.symm.trans hs)
    subst e1; subst e3
    cases h2 with
    | set cidrs hallow => exact Bool.noConfusion hallow
    | check l₁' l₂' hdec' =>
      obtain ⟨f1, f2, f3⟩ := singleton_decomp (hdec'.symm.trans hs)
      subst f1; subst f3
      exact ⟨rfl, rfl⟩
    | body l₁' l₂' val' ncl' npr' dI' dP' eO' pA' aOk' hdec' hok' =>
      obtain ⟨f1, f2, f3⟩ := singleton_decomp (hdec'.symm.trans hs)
      rw [← e2] at f2
      exact LoopPC.noConfusion f2
  | body l₁ l₂ val ncl npr dI dP eO pA aOk hdec hok =>
    obtain ⟨e1, e2, e3⟩ := singleton_decomp (hdec.symm.trans hs)
    subst e1; subst e3
    obtain ⟨hdI, hdP, heO, hpA, haOk⟩ := hok rfl
    subst hdI; subst hdP; subst heO; subst hpA
    have haOkf : aOk = fun _ => true := funext fun i => haOk i
    subst haOkf
    cases h2 with
    | set cidrs hallow => exact Bool.noConfusion hallow
    | check l₁' l₂' hdec' =>
      obtain ⟨f1, f2, f3⟩ := singleton_decomp (hdec'.symm.trans hs)
      rw [← e2] at f2
      exact LoopPC.noConfusion f2
    | body l₁' l₂' val' ncl' npr' dI' dP' eO' pA' aOk' hdec' hok' =>
      obtain ⟨f1, f2, f3⟩ := singleton_decomp (hdec'.symm.trans hs)
      subst f1; subst f3
      rw [← e2] at f2
      injection f2 with g1 g2 g3
      subst g1; subst g2; subst g3
      obtain ⟨hdI', hdP', heO', hpA', haOk'⟩ := hok' rfl
      subst hdI'; subst hdP'; subst heO'; subst hpA'
      have haOkf' : aOk' = fun _ => true := funext fun i => haOk' i
      subst haOkf'
      exact ⟨rfl, rfl⟩

/-- Claim C2: coalescing / last-write-wins.  If `SetDesired(A)` is issued,
the convergence loop runs for a while (possibly not yet having applied `A`),
`SetDesired(B)` is issued and then calls cease, every loop-only execution
that terminates (no goroutine left) ends with `known = true` and
`lastVal = B`, the last-requested list — never with `A` as the durable
state — because the loop re-reads `want` under the lock at the top of every
iteration before deciding to exit. -/
theorem coalescing_last_write_wins
    (s₀ : TState) (A B : List String) (trm : List (Cmd × Bool)) (s₁ : TState)
    (tr : List (Cmd × Bool)) (s' : TState)
    (hinv : loopInv s₀)
    (hA : LSteps (applySet s₀ A) trm s₁)
    (hB : LSteps (applySet s₁ B) tr s')
    (hdone : s'.loops = []) :
    s'.ft.known = true ∧ s'.ft.lastVal = B ∧ s'.ft.want = B := by
  have hinvA : loopInv (applySet s₀ A) := applySet_loopInv hinv A
  have hinv1 : loopInv s₁ := star_loopInv hA hinvA
  have hinvB : loopInv (applySet s₁ B) := applySet_loopInv hinv1 B
  have hne : (applySet s₁ B).loops ≠ [] := applySet_loops_ne hinv1 B
  have h := lsteps_exit hB hinvB hne hdone
  rw [(applySet_ft s₁ B).1] at h
  exact h

/-- Claim C3: the convergence loop exits iff, at the top of an iteration
under the lock, `known` holds and the snapshot of `want` equals `lastVal`
(order-sensitive sequence equality), clearing `running` on exit; and for
any finite sequence of `SetDesired` calls, once calls cease (`SLSteps` has
no `set` steps) and every firewall command succeeds (all oracles `true`),
the loop terminates — the all-success loop-only step relation is
deterministic, and from the state left by the last `SetDesired` it reaches,
in finitely many steps, a state with no goroutine, `running = false`,
`known = true` and `lastVal` equal to the last-issued desired list. -/
theorem loop_exit_iff_converged_and_terminates :
    (∀ ft : FT,
      ((doCheck ft).2 = none ↔ ft.known = true ∧ ft.lastVal = ft.want)
      ∧ ((doCheck ft).2 = none → (doCheck ft).1.running = false))
    ∧ (∀ (s₀ : TState) (lastList : List String), loopInv s₀ →
        ∃ (tr : List (Cmd × Bool)) (s' : TState),
          SLSteps (applySet s₀ lastList) tr s' ∧ s'.loops = [] ∧
          s'.ft.running = false ∧ s'.ft.known = true ∧ s'.ft.lastVal = lastList)
    ∧ (∀ (s : TState) (pc : LoopPC) (tr₁ : List (Cmd × Bool)) (s₁ : TState)
        (tr₂ : List (Cmd × Bool)) (s₂ : TState),
        s.loops = [pc] → SLStep s tr₁ s₁ → SLStep s tr₂ s₂ →
        tr₁ = tr₂ ∧ s₁ = s₂) := by
  refine ⟨?_, ?_, ?_⟩
  · intro ft
    refine ⟨⟨doCheck_cond_of_exit, ?_⟩, ?_⟩
    · intro h
      rw [doCheck_exit h.1 h.2]
    · intro h
      obtain ⟨hk, he⟩ := doCheck_cond_of_exit h
      rw [doCheck_exit hk he]
  · intro s₀ L hinv
    have hinvA : loopInv (applySet s₀ L) := applySet_loopInv hinv L
    have hrun : (applySet s₀ L).ft.running = true := (applySet_ft s₀ L).2.1
    have hlen : (applySet s₀ L).loops.length = 1 := by
      have h := hinvA
      unfold loopInv at h
      rw [hrun] at h
      simpa using h
    obtain ⟨pc, hpc⟩ := List.length_eq_one.mp hlen
    have hwant : (applySet s₀ L).ft.want = L := (applySet_ft s₀ L).1
    cases pc with
    | top =>
      obtain ⟨tr, s', hsteps, h1, h2, h3, h4, h5⟩ := from_top hpc
      exact ⟨tr, s', hsteps, h1, h2, h3, by rw [h4, hwant]⟩
    | body val ncl npr =>
      have step1 := @StepG.body false true
        (applySet s₀ L) [] [] val ncl npr true true true true (fun _ => true) hpc
        (fun _ => ⟨rfl, rfl, rfl, rfl, fun _ => rfl⟩)
      obtain ⟨tr, s', hsteps, h1, h2, h3, h4, h5⟩ :=
        @from_top { ft := doBody (applySet s₀ L).ft val npr true true (fun _ => true),
                    loops := [] ++ LoopPC.top :: [] } rfl
      refine ⟨_, s', star_trans (Star.tail (Star.refl _) step1) hsteps, h1, h2, h3, ?_⟩
      rw [h4]
      simp [doBody, hwant]
  · intro s pc tr₁ s₁ tr₂ s₂ hs h1 h2
    exact slstep_deterministic hs h1 h2

/-- Claim C4: at most one convergence goroutine is ever active: `set` spawns
one exactly when `running` is false, setting `running` before the spawn;
the loop clears `running` only in its exit step and keeps it set otherwise;
and along any interleaving of `set` calls and loop steps the number of
active goroutines stays `1` when `running` and `0` otherwise — in
particular it never exceeds one. -/
theorem single_loop_invariant :
    (∀ (ft : FT) (cidrs : List String),
      ((ftSet ft cidrs).2 = true ↔ ft.running = false)
      ∧ (ftSet ft cidrs).1.running = true)
    ∧ (∀ ft : FT, (doCheck ft).2.isSome = true → (doCheck ft).1.running = ft.running)
    ∧ (∀ (ft : FT) (val : List String) (npr eO pA : Bool) (aOk : Nat → Bool),
        (doBody ft val npr eO pA aOk).running = ft.running)
    ∧ (∀ (s : TState) (tr : List (Cmd × Bool)) (s' : TState),
        loopInv s → Steps s tr s' → loopInv s' ∧ s'.loops.length ≤ 1) := by
  refine ⟨?_, ?_, ?_, ?_⟩
  · intro ft cidrs
    by_cases hr : ft.running <;> simp [ftSet, hr]
  · intro ft h
    by_cases hc : ft.known = true ∧ ft.lastVal = ft.want
    · rw [doCheck_exit hc.1 hc.2] at h
      simp at h
    · rw [doCheck_cont hc]
  · intro ft val npr eO pA aOk
    rfl
  · intro s tr s' hinv hsteps
    have h := star_loopInv hsteps hinv
    refine ⟨h, ?_⟩
    unfold loopInv at h
    rw [h]
    by_cases hr : s'.ft.running <;> simp [hr]

theorem stepG_didProc_mono {a r : Bool} {s : TState} {tr : List (Cmd × Bool)} {s' : TState}
    (h : StepG a r s tr s') (hd : s.ft.didProcRule = true) : s'.ft.didProcRule = true := by
  cases h with
  | set cidrs hallow =>
    rw [(applySet_ft s cidrs).2.2.1]
    exact hd
  | check l₁ l₂ hdec =>
    by_cases hc : s.ft.known = true ∧ s.ft.lastVal = s.ft.want
    · rw [doCheck_exit hc.1 hc.2]
      simpa using hd
    · rw [doCheck_cont hc]
      simpa using hd
  | body l₁ l₂ val ncl npr dI dP eO pA aOk hdec hok =>
    simp [doBody, hd]

theorem stepG_no_proc_cmds {a r : Bool} {s : TState} {tr : List (Cmd × Bool)} {s' : TState}
    (h : StepG a r s tr s') (hinv : loopInv s) (hp : procInv s)
    (hd : s.ft.didProcRule = true) :
    ∀ b : Bool, (Cmd.addProc, b) ∉ tr ∧ (Cmd.deleteProc, b) ∉ tr := by
  cases h with
  | set cidrs hallow => intro b; simp
  | check l₁ l₂ hdec => intro b; simp
  | body l₁ l₂ val ncl npr dI dP eO pA aOk hdec hok =>
    have hm : LoopPC.body val ncl npr ∈ s.loops
    · rw [hdec]
      exact List.mem_append.mpr (Or.inr (List.mem_cons_self _ _))
    have hnpr : npr = !s.ft.didProcRule := hp val ncl npr hm
    rw [hd] at hnpr
    simp at hnpr
    subst hnpr
    intro b
    constructor <;> by_cases hncl : ncl <;>
      simp [iterTrace, procRuleTrace, hncl]

theorem stepG_didProc_flip {a r : Bool} {s : TState} {tr : List (Cmd × Bool)} {s' : TState}
    (h : StepG a r s tr s') (h0 : s.ft.didProcRule = false)
    (h1 : s'.ft.didProcRule = true) : (Cmd.addProc, true) ∈ tr := by
  cases h with
  | set cidrs hallow =>
    exfalso
    rw [(applySet_ft s cidrs).2.2.1, h0] at h1
    exact Bool.noConfusion h1
  | check l₁ l₂ hdec =>
    exfalso
    by_cases hc : s.ft.known = true ∧ s.ft.lastVal = s.ft.want
    · rw [doCheck_exit hc.1 hc.2] at h1
      simp [h0] at h1
    · rw [doCheck_cont hc] at h1
      simp [h0] at h1
  | body l₁ l₂ val ncl npr dI dP eO pA aOk hdec hok =>
    simp [doBody, h0] at h1
    obtain ⟨⟨hn, he⟩, hpa⟩ := h1
    subst hn; subst he; subst hpa
    by_cases hncl : ncl <;> simp [iterTrace, procRuleTrace, hncl]

theorem star_no_proc_cmds {a r : Bool} {s : TState} {tr : List (Cmd × Bool)} {s' : TState}
    (h : Star a r s tr s') (hinv : loopInv s) (hp : procInv s)
    (hd : s.ft.didProcRule = true) :
    s'.ft.didProcRule = true ∧
      ∀ b : Bool, (Cmd.addProc, b) ∉ tr ∧ (Cmd.deleteProc, b) ∉ tr := by
  induction h with
  | refl => exact ⟨hd, by simp⟩
  | tail hstar hstep ih =>
    obtain ⟨hdm, hnot⟩ := ih
    have hinvm := star_loopInv hstar hinv
    have hpm := star_procInv hstar hinv hp
    have hdm' := stepG_didProc_mono hstep hdm
    have hnot2 := stepG_no_proc_cmds hstep hinvm hpm hdm
    refine ⟨hdm', fun b => ⟨?_, ?_⟩⟩
    · intro hmem
      rcases List.mem_append.mp hmem with hx | hx
      · exact (hnot b).1 hx
      · exact (hnot2 b).1 hx
    · intro hmem
      rcases List.mem_append.mp hmem with hx | hx
      · exact (hnot b).2 hx
      · exact (hnot2 b).2 hx

theorem star_didProc_flip {a r : Bool} :
    ∀ {s : TState} {tr : List (Cmd × Bool)} {s' : TState},
      Star a r s tr s' → s.ft.didProcRule = false →
      s'.ft.didProcRule = true → (Cmd.addProc, true) ∈ tr := by
  intro s tr s' h
  induction h with
  | refl =>
    intro h0 h1
    rw [h0] at h1
    exact Bool.noConfusion h1
  | tail hstar hstep ih =>
    rename_i trA sm trB sfin
    intro h0 h1
    by_cases hm : sm.ft.didProcRule = true
    · exact List.mem_append.mpr (Or.inl (ih h0 hm))
    · simp at hm
      exact List.mem_append.mpr (Or.inr (stepG_didProc_flip hstep hm h1))

/-- Claim C6: the `Tailscale-Process` rule is installed at most once per
process lifetime: along any interleaving, once `didProcRule` is set it is
never reset and no further `Tailscale-Process` delete or add command is
issued; and `didProcRule` flips from false to true only in a step whose
command trace contains a successful `Tailscale-Process` add. -/
theorem proc_rule_installed_at_most_once
    (s : TState) (tr : List (Cmd × Bool)) (s' : TState)
    (hinv : loopInv s) (hp : procInv s) (hsteps : Steps s tr s') :
    (s.ft.didProcRule = true →
      s'.ft.didProcRule = true
      ∧ ∀ b : Bool, (Cmd.addProc, b) ∉ tr ∧ (Cmd.deleteProc, b) ∉ tr)
    ∧ (s.ft.didProcRule = false → s'.ft.didProcRule = true →
        (Cmd.addProc, true) ∈ tr) := by
  constructor
  · intro hd
    exact star_no_proc_cmds hsteps hinv hp hd
  · intro h0 h1
    exact star_didProc_flip hsteps h0 h1

theorem runAdds_spec (addOk : Nat → Bool) (val : List String) :
    ∀ i : Nat, ∃ k, k ≤ val.length ∧
      (runAdds addOk i val).1.map Prod.fst = val.take k ∧
      ((runAdds addOk i val).2 = true ↔ ∀ j, j < val.length → addOk (i + j) = true) ∧
      ((runAdds addOk i val).2 = true → k = val.length) ∧
      ((runAdds addOk i val).2 = false →
        0 < k ∧ addOk (i + (k - 1)) = false ∧ ∀ j, j < k - 1 → addOk (i + j) = true) := by
  induction val with
  | nil =>
    intro i
    exact ⟨0, by simp [runAdds]⟩
  | cons c rest ih =>
    intro i
    by_cases h : addOk i = true
    · obtain ⟨k, hk, hmap, hiff, htrue, hfalse⟩ := ih (i + 1)
      have hrw : runAdds addOk i (c :: rest)
          = ((c, true) :: (runAdds addOk (i + 1) rest).1, (runAdds addOk (i + 1) rest).2) := by
        simp [runAdds, h]
      refine ⟨k + 1, by simp; omega, ?_, ?_, ?_, ?_⟩
      · rw [hrw]
        simp [hmap]
      · rw [hrw]
        constructor
        · intro h2 j hj
          cases j with
          | zero => simpa using h
          | succ j' =>
            have hx := hiff.mp h2 j' (by simp at hj; omega)
            have he : i + 1 + j' = i + (j' + 1) := by omega
            rw [← he]
            exact hx
        · intro h2
          apply hiff.mpr
          intro j hj
          have hx := h2 (j + 1) (by simp; omega)
          have he : i + (j + 1) = i + 1 + j := by omega
          rw [← he]
          exact hx
      · rw [hrw]
        intro h2
        have h3 := htrue h2
        simp [h3]
      · rw [hrw]
        intro h2
        obtain ⟨hk0, hfail, hpre⟩ := hfalse h2
        refine ⟨by omega, ?_, ?_⟩
        · have he : i + (k + 1 - 1) = i + 1 + (k - 1) := by omega
          rw [he]
          exact hfail
        · intro j hj
          cases j with
          | zero => simpa using h
          | succ j' =>
            have hx := hpre j' (by omega)
            have he : i + (j' + 1) = i + 1 + j' := by omega
            rw [he]
            exact hx
    · have hb : addOk i = false := by simpa using h
      have hrw : runAdds addOk i (c :: rest) = ([(c, false)], false) := by
        simp [runAdds, hb]
      refine ⟨1, by simp, ?_, ?_, ?_, ?_⟩
      · rw [hrw]
        simp
      · rw [hrw]
        constructor
        · intro h2
          exact absurd h2 (by simp)
        · intro h2
          exfalso
          have hx := h2 0 (by simp)
          rw [Nat.add_zero, hb] at hx
          exact Bool.noConfusion hx
      · rw [hrw]
        intro h2
        exact absurd h2 (by simp)
      · rw [hrw]
        intro _
        refine ⟨by omega, by simpa using hb, ?_⟩
        intro j hj
        exact absurd hj (by omega)

/-- Claim C7: in each loop iteration the `Tailscale-In` add commands are
issued for the CIDRs of the snapshot `val` exactly in the order given,
stopping at the first failing command so that no add is issued for any later
CIDR; all adds before the failing one succeeded; the error handed to the
backoff step, which also determines `known = (err == nil)` at the write-back,
is nil exactly when every add succeeded; and within the iteration's command
trace the adds come after the clear / process-rule commands, which are never
`Tailscale-In` adds. -/
theorem adds_in_order_stop_at_first_failure :
    (∀ (addOk : Nat → Bool) (val : List String), ∃ k, k ≤ val.length ∧
      (runAdds addOk 0 val).1.map Prod.fst = val.take k ∧
      ((runAdds addOk 0 val).2 = true ↔ ∀ j, j < val.length → addOk j = true) ∧
      ((runAdds addOk 0 val).2 = true → k = val.length) ∧
      ((runAdds addOk 0 val).2 = false →
        0 < k ∧ addOk (k - 1) = false ∧ ∀ j, j < k - 1 → addOk j = true))
    ∧ (∀ (ncl npr dI dP eO pA : Bool) (addOk : Nat → Bool) (val : List String),
        ∃ pre, iterTrace ncl npr dI dP eO pA addOk val
            = pre ++ (runAdds addOk 0 val).1.map (fun q => (Cmd.addIn q.1, q.2))
          ∧ ∀ (c : Cmd) (b : Bool), (c, b) ∈ pre → ∀ cidr, c ≠ Cmd.addIn cidr)
    ∧ (∀ (ft : FT) (val : List String) (npr eO pA : Bool) (addOk : Nat → Bool),
        (doBody ft val npr eO pA addOk).known = (runAdds addOk 0 val).2) := by
  refine ⟨?_, ?_, ?_⟩
  · intro addOk val
    obtain ⟨k, hk, hmap, hiff, htrue, hfalse⟩ := runAdds_spec addOk val 0
    simp only [Nat.zero_add] at hiff hfalse
    exact ⟨k, hk, hmap, hiff, htrue, hfalse⟩
  · intro ncl npr dI dP eO pA addOk val
    refine ⟨(if ncl then [(Cmd.deleteIn, dI)] else []) ++ procRuleTrace npr eO dP pA,
      ?_, ?_⟩
    · simp [iterTrace]
    · intro c b hm cidr
      rcases List.mem_append.mp hm with hx | hx
      · by_cases hncl : ncl
        · simp [hncl] at hx
          rw [hx.1]
          simp
        · simp [hncl] at hx
      · by_cases hnpr : npr
        · by_cases heO : eO
          · simp [procRuleTrace, hnpr, heO] at hx
            rcases hx with hx | hx <;> rw [hx.1] <;> simp
          · simp [procRuleTrace, hnpr, heO] at hx
            rw [hx.1]
            simp
        · simp [procRuleTrace, hnpr] at hx
  · intro ft val npr eO pA addOk
    rfl

theorem winRouterSet_flag (r : WinRouter) (cfg? : Option Config) (o : SetOracles)
    (h1 : o.cfgIfaceErr = none) (h2 : o.dnsErr = none) :
    (winRouterSet r cfg? o).1.wgFirewallEnabled
      = hasDefaultRoute (cfg?.getD shutdownConfig).routes
    ∧ (winRouterSet r cfg? o).2.1 = none := by
  cases hd : hasDefaultRoute (cfg?.getD shutdownConfig).routes <;>
    cases hf : r.wgFirewallEnabled <;>
    simp [winRouterSet, h1, h2, hd, hf]

theorem winRouterSet_no_toggle (r : WinRouter) (cfg? : Option Config) (o : SetOracles)
    (hsame : hasDefaultRoute (cfg?.getD shutdownConfig).routes = r.wgFirewallEnabled) :
    REvent.enableFirewall ∉ (winRouterSet r cfg? o).2.2
    ∧ REvent.disableFirewall ∉ (winRouterSet r cfg? o).2.2
    ∧ (winRouterSet r cfg? o).1.wgFirewallEnabled = r.wgFirewallEnabled := by
  cases h1 : o.cfgIfaceErr <;> cases h2 : o.dnsErr <;>
    cases hf : r.wgFirewallEnabled <;>
    rw [hf] at hsame <;>
    simp [winRouterSet, h1, h2, hf, hsame]

/-- Claim C1, counterexample: with the killswitch disabled, a default route
present and `EnableFirewall` returning an error, `winRouter.Set` logs the
error and returns nil, but `wgFirewallEnabled` does not keep its previous
value `false` — it is set to `true` anyway, contradicting the claim that the
flag is left unchanged on toggle failure. -/
theorem killswitch_flag_changes_on_toggle_error_cex :
    (winRouterSet
        ⟨⟨⟨false, false, false, [], []⟩, []⟩, false, none⟩
        (some ⟨[], [⟨"0.0.0.0", 0⟩], ""⟩)
        ⟨none, none, some "enable failed", none⟩).1.wgFirewallEnabled ≠ false
    ∧ (winRouterSet
        ⟨⟨⟨false, false, false, [], []⟩, []⟩, false, none⟩
        (some ⟨[], [⟨"0.0.0.0", 0⟩], ""⟩)
        ⟨none, none, some "enable failed", none⟩).2.1 = none
    ∧ REvent.enableFirewall ∈ (winRouterSet
        ⟨⟨⟨false, false, false, [], []⟩, []⟩, false, none⟩
        (some ⟨[], [⟨"0.0.0.0", 0⟩], ""⟩)
        ⟨none, none, some "enable failed", none⟩).2.2 := by
  refine ⟨?_, ?_, ?_⟩ <;> decide

/-- Claim C1 (amended): when `winRouter.Set` reaches the killswitch
evaluation (interface and DNS configuration succeeded), any toggle error is
only logged — `Set` returns nil — but `wgFirewallEnabled` is updated to the
new value (the current default-route presence) regardless of the toggle
result, so a subsequent `Set` with the same default-route presence does not
re-attempt the transition. -/
theorem killswitch_toggle_error_flag_updated
    (r : WinRouter) (cfg? : Option Config) (o : SetOracles) (cfg2 : Config)
    (o2 : SetOracles)
    (h1 : o.cfgIfaceErr = none) (h2 : o.dnsErr = none)
    (h3 : o2.cfgIfaceErr = none) (h4 : o2.dnsErr = none)
    (hsame : hasDefaultRoute cfg2.routes
      = hasDefaultRoute (cfg?.getD shutdownConfig).routes) :
    ((winRouterSet r cfg? o).1.wgFirewallEnabled
      = hasDefaultRoute (cfg?.getD shutdownConfig).routes
     ∧ (winRouterSet r cfg? o).2.1 = none)
    ∧ REvent.enableFirewall
        ∉ (winRouterSet (winRouterSet r cfg? o).1 (some cfg2) o2).2.2
    ∧ REvent.disableFirewall
        ∉ (winRouterSet (winRouterSet r cfg? o).1 (some cfg2) o2).2.2 := by
  have hflag := winRouterSet_flag r cfg? o h1 h2
  have hsame2 : hasDefaultRoute ((some cfg2).getD shutdownConfig).routes
      = (winRouterSet r cfg? o).1.wgFirewallEnabled := by
    rw [hflag.1]
    simpa using hsame
  have hnt := winRouterSet_no_toggle (winRouterSet r cfg? o).1 (some cfg2) o2 hsame2
  exact ⟨hflag, hnt.1, hnt.2.1⟩

/-- Claim C5, counterexample: two consecutive `Set` calls with identical
configurations containing a default route, where the first call fails at
DNS application (so the killswitch is never evaluated): the second call does
issue an `EnableFirewall` call, contradicting the claim that the second of
two same-presence calls never toggles. -/
theorem killswitch_idempotence_cex :
    REvent.enableFirewall ∈
      (winRouterSet
        (winRouterSet ⟨⟨⟨false, false, false, [], []⟩, []⟩, false, none⟩
          (some ⟨[], [⟨"0.0.0.0", 0⟩], ""⟩)
          ⟨none, some "dns failed", none, none⟩).1
        (some ⟨[], [⟨"0.0.0.0", 0⟩], ""⟩)
        ⟨none, none, none, none⟩).2.2 := by
  decide

/-- Claim C5 (amended): for two consecutive `Set` calls that agree on
default-route presence and in which both calls reach the killswitch
evaluation (interface and DNS configuration succeed in both), the second
call issues no `EnableFirewall` and no `DisableFirewall` and leaves the flag
unchanged; and, unconditionally, `wgFirewallEnabled` changes during a `Set`
only when the call reaches the killswitch evaluation and the default-route
presence differs from the recorded flag value. -/
theorem killswitch_idempotence_after_successful_sets
    (r : WinRouter) (cfg1 cfg2 : Config) (o1 o2 : SetOracles)
    (h1 : o1.cfgIfaceErr = none) (h2 : o1.dnsErr = none)
    (h3 : o2.cfgIfaceErr = none) (h4 : o2.dnsErr = none)
    (hsame : hasDefaultRoute cfg1.routes = hasDefaultRoute cfg2.routes) :
    (REvent.enableFirewall
        ∉ (winRouterSet (winRouterSet r (some cfg1) o1).1 (some cfg2) o2).2.2
     ∧ REvent.disableFirewall
        ∉ (winRouterSet (winRouterSet r (some cfg1) o1).1 (some cfg2) o2).2.2
     ∧ (winRouterSet (winRouterSet r (some cfg1) o1).1 (some cfg2) o2).1.wgFirewallEnabled
        = (winRouterSet r (some cfg1) o1).1.wgFirewallEnabled)
    ∧ (∀ (r' : WinRouter) (c : Option Config) (o' : SetOracles),
        (winRouterSet r' c o').1.wgFirewallEnabled ≠ r'.wgFirewallEnabled →
        o'.cfgIfaceErr = none ∧ o'.dnsErr = none
        ∧ hasDefaultRoute (c.getD shutdownConfig).routes = !r'.wgFirewallEnabled) := by
  constructor
  · have hflag := winRouterSet_flag r (some cfg1) o1 h1 h2
    have hsame2 : hasDefaultRoute ((some cfg2).getD shutdownConfig).routes
        = (winRouterSet r (some cfg1) o1).1.wgFirewallEnabled := by
      rw [hflag.1]
      simpa using hsame.symm
    exact winRouterSet_no_toggle (winRouterSet r (some cfg1) o1).1 (some cfg2) o2 hsame2
  · intro r' c o' hne
    cases g1 : o'.cfgIfaceErr with
    | some e =>
      exfalso
      apply hne
      simp [winRouterSet, g1]
    | none =>
      cases g2 : o'.dnsErr with
      | some e =>
        exfalso
        apply hne
        simp [winRouterSet, g1, g2]
      | none =>
        refine ⟨rfl, rfl, ?_⟩
        cases hd : hasDefaultRoute (c.getD shutdownConfig).routes <;>
          cases hf : r'.wgFirewallEnabled <;>
          rw [hf] at hne <;>
          simp [winRouterSet, g1, g2, hd, hf] at hne ⊢

/-- Claim C8: `winRouter.Set` control flow.  A nil config behaves exactly as
the empty shutdown config; the allow-list derived from `cfg.LocalAddrs` is
always handed to the firewall tweaker first (both as the first collaborator
call and as the state update); an interface-configuration error is returned
and neither DNS application nor the killswitch evaluation happens; a DNS
error is returned (wrapped) and the killswitch evaluation does not happen;
in both error cases the killswitch flag is untouched; and when both
collaborators succeed `Set` returns nil. -/
theorem set_control_flow (r : WinRouter) (cfg? : Option Config) (o : SetOracles) :
    (winRouterSet r none o = winRouterSet r (some shutdownConfig) o)
    ∧ ((winRouterSet r cfg? o).2.2.head?
        = some (REvent.fwSet ((cfg?.getD shutdownConfig).localAddrs.map cidrString)))
    ∧ ((winRouterSet r cfg? o).1.ftState
        = applySet r.ftState ((cfg?.getD shutdownConfig).localAddrs.map cidrString))
    ∧ (∀ e, o.cfgIfaceErr = some e →
        (winRouterSet r cfg? o).2.1 = some (SetErr.cfgIface e)
        ∧ REvent.dnsSet ∉ (winRouterSet r cfg? o).2.2
        ∧ REvent.enableFirewall ∉ (winRouterSet r cfg? o).2.2
        ∧ REvent.disableFirewall ∉ (winRouterSet r cfg? o).2.2
        ∧ (winRouterSet r cfg? o).1.wgFirewallEnabled = r.wgFirewallEnabled)
    ∧ (∀ e, o.cfgIfaceErr = none → o.dnsErr = some e →
        (winRouterSet r cfg? o).2.1 = some (SetErr.dnsSet e)
        ∧ REvent.enableFirewall ∉ (winRouterSet r cfg? o).2.2
        ∧ REvent.disableFirewall ∉ (winRouterSet r cfg? o).2.2
        ∧ (winRouterSet r cfg? o).1.wgFirewallEnabled = r.wgFirewallEnabled)
    ∧ (o.cfgIfaceErr = none → o.dnsErr = none →
        (winRouterSet r cfg? o).2.1 = none) := by
  refine ⟨rfl, ?_, ?_, ?_, ?_, ?_⟩
  · cases g1 : o.cfgIfaceErr <;> cases g2 : o.dnsErr <;>
      cases hd : hasDefaultRoute (cfg?.getD shutdownConfig).routes <;>
      cases hf : r.wgFirewallEnabled <;>
      simp [winRouterSet, g1, g2, hd, hf]
  · cases g1 : o.cfgIfaceErr <;> cases g2 : o.dnsErr <;>
      cases hd : hasDefaultRoute (cfg?.getD shutdownConfig).routes <;>
      cases hf : r.wgFirewallEnabled <;>
      simp [winRouterSet, g1, g2, hd, hf]
  · intro e g1
    simp [winRouterSet, g1]
  · intro e g1 g2
    cases hd : hasDefaultRoute (cfg?.getD shutdownConfig).routes <;>
      cases hf : r.wgFirewallEnabled <;>
      simp [winRouterSet, g1, g2, hd, hf]
  · intro g1 g2
    exact (winRouterSet_flag r cfg? o g1 g2).2

/-- Claim C10: `winRouter.Up` first resets the firewall tweaker's desired
allow-list to empty (a `SetDesired(empty)`, scheduling removal of all
`Tailscale-In` rules) and only then attempts the default-route monitor
subscription; if the subscription fails, `Up` returns that error having
changed nothing else on the router (on a fresh router, with no callback
registered, the clear is the only state change), and on success it records
the subscription handle and returns nil. -/
theorem up_clears_firewall_first (r : WinRouter) (mon : Except GoErr Nat) :
    (winRouterUp r mon).2.2 = [REvent.fwSet [], REvent.monitorDefaultRoutes]
    ∧ (winRouterUp r mon).1.ftState = ftClear r.ftState
    ∧ (winRouterUp r mon).1.ftState.ft.want = []
    ∧ (∀ e, mon = Except.error e →
        (winRouterUp r mon).2.1 = some e
        ∧ (winRouterUp r mon).1.wgFirewallEnabled = r.wgFirewallEnabled
        ∧ (r.routeChangeCallback = none →
            (winRouterUp r mon).1 = { r with ftState := ftClear r.ftState }))
    ∧ (∀ h, mon = Except.ok h →
        (winRouterUp r mon).2.1 = none
        ∧ (winRouterUp r mon).1.routeChangeCallback = some h) := by
  cases mon with
  | error e =>
    refine ⟨rfl, rfl, (applySet_ft r.ftState []).1, ?_, ?_⟩
    · intro e' he
      obtain rfl : e = e' := by simpa [winRouterUp] using congrArg (fun x => x) he
      refine ⟨rfl, rfl, ?_⟩
      intro hrc
      simp [winRouterUp, ftClear, hrc]
    · intro h hh
      exact absurd hh (by simp)
  | ok h =>
    refine ⟨rfl, rfl, (applySet_ft r.ftState []).1, ?_, ?_⟩
    · intro e' he
      exact absurd he (by simp)
    · intro h' hh
      obtain rfl : h = h' := by simpa using hh
      exact ⟨rfl, rfl⟩

end Router

namespace Health

theorem lookup_mapSet (m : List (String × Option Err)) (k : String) (v : Option Err) :
    (mapSet m k v).lookup k = some v := by
  induction m with
  | nil => simp [mapSet, List.lookup]
  | cons p rest ih =>
    obtain ⟨k', v'⟩ := p
    by_cases h : k' = k
    · simp [mapSet, h, List.lookup]
    · have hb : (k' == k) = false := by simp [h]
      have hb2 : (k == k') = false := by
        simp
        exact fun hc => h hc.symm
      simp [mapSet, hb, List.lookup, hb2, ih]

/-- Claim C9: `health.set` spawns the registered watcher callbacks exactly
when the key's error status transitions between nil and non-nil, including
a first set of an unknown key to a non-nil error; it never spawns them on
the first set of an unknown key to nil, nor when the status stays nil or
stays non-nil — though in the non-nil-to-non-nil case the stored error value
is still updated, and in the stays-nil case the map is untouched. -/
theorem set_callback_fires_iff_error_transition
    (m : List (String × Option Err)) (ws : List Nat) (key : String) (err : Option Err) :
    (m.lookup key = none → err = none →
      (set m ws key err).2 = [] ∧ (set m ws key err).1.lookup key = some none)
    ∧ (∀ e, m.lookup key = none → err = some e →
      (∀ w ∈ ws, (w, key, some e) ∈ (set m ws key err).2)
      ∧ (set m ws key err).1.lookup key = some (some e))
    ∧ (∀ old, m.lookup key = some old → old.isNone = err.isNone →
      (set m ws key err).2 = []
      ∧ (∀ e, err = some e → (set m ws key err).1.lookup key = some (some e))
      ∧ (err = none → (set m ws key err).1 = m))
    ∧ (∀ old, m.lookup key = some old → old.isNone ≠ err.isNone →
      (∀ w ∈ ws, (w, key, err) ∈ (set m ws key err).2)
      ∧ (set m ws key err).1.lookup key = some err) := by
  refine ⟨?_, ?_, ?_, ?_⟩
  · intro h1 h2
    subst h2
    simp [set, h1, lookup_mapSet]
  · intro e h1 h2
    subst h2
    simp [set, h1, lookup_mapSet]
  · intro old h1 hiso
    cases herr : err with
    | none =>
      rw [herr] at hiso
      simp at hiso
      simp [set, h1, hiso]
    | some e =>
      rw [herr] at hiso
      simp at hiso
      simp [set, h1, hiso, lookup_mapSet]
  · intro old h1 hne
    cases herr : err with
    | none =>
      rw [herr] at hne
      simp at hne
      simp [set, h1, hne, lookup_mapSet]
    | some e =>
      rw [herr] at hne
      simp at hne
      simp [set, h1, hne, lookup_mapSet]

end Health

namespace Router

/-- Witness for the coalescing claim: a concrete `set(A)`, `set(B)`,
loop-exit run on which the theorem's hypotheses hold and its conclusion
evaluates. -/
theorem coalescing_last_write_wins_witness :
    loopInv (⟨⟨false, false, true, [], []⟩, []⟩ : TState)
    ∧ LSteps (applySet (applySet (⟨⟨false, false, true, [], []⟩, []⟩ : TState)
        ["1.1.1.1/32"]) []) [] (⟨⟨false, false, true, [], []⟩, []⟩ : TState)
    ∧ (⟨⟨false, false, true, [], []⟩, []⟩ : TState).loops = []
    ∧ ((⟨⟨false, false, true, [], []⟩, []⟩ : TState).ft.known = true
       ∧ (⟨⟨false, false, true, [], []⟩, []⟩ : TState).ft.lastVal = []
       ∧ (⟨⟨false, false, true, [], []⟩, []⟩ : TState).ft.want = []) := by
  have chain : LSteps (applySet (applySet (⟨⟨false, false, true, [], []⟩, []⟩ : TState)
      ["1.1.1.1/32"]) []) [] (⟨⟨false, false, true, [], []⟩, []⟩ : TState) :=
    Star.tail (Star.refl _) (StepG.check _ [] [] rfl)
  exact ⟨by decide, chain, rfl,
    coalescing_last_write_wins ⟨⟨false, false, true, [], []⟩, []⟩ ["1.1.1.1/32"] [] []
      (applySet (⟨⟨false, false, true, [], []⟩, []⟩ : TState) ["1.1.1.1/32"]) []
      ⟨⟨false, false, true, [], []⟩, []⟩ (by decide) (Star.refl _) chain rfl⟩

/-- Witness for the exit/termination claim: the convergence statement
instantiated on a concrete initial state and desired list. -/
theorem loop_exit_iff_converged_and_terminates_witness :
    loopInv (⟨⟨false, false, false, [], []⟩, []⟩ : TState)
    ∧ ∃ (tr : List (Cmd × Bool)) (s' : TState),
        SLSteps (applySet (⟨⟨false, false, false, [], []⟩, []⟩ : TState)
          ["10.0.0.1/32"]) tr s'
        ∧ s'.loops = [] ∧ s'.ft.running = false ∧ s'.ft.known = true
        ∧ s'.ft.lastVal = ["10.0.0.1/32"] :=
  ⟨by decide,
    loop_exit_iff_converged_and_terminates.2.1
      ⟨⟨false, false, false, [], []⟩, []⟩ ["10.0.0.1/32"] (by decide)⟩

/-- Witness for the single-loop claim: a concrete one-step execution. -/
theorem single_loop_invariant_witness :
    loopInv (⟨⟨false, false, false, [], []⟩, []⟩ : TState)
    ∧ Steps (⟨⟨false, false, false, [], []⟩, []⟩ : TState) []
        (applySet (⟨⟨false, false, false, [], []⟩, []⟩ : TState) ["10.0.0.1/32"])
    ∧ (loopInv (applySet (⟨⟨false, false, false, [], []⟩, []⟩ : TState) ["10.0.0.1/32"])
       ∧ (applySet (⟨⟨false, false, false, [], []⟩, []⟩ : TState)
            ["10.0.0.1/32"]).loops.length ≤ 1) := by
  have chain : Steps (⟨⟨false, false, false, [], []⟩, []⟩ : TState) []
      (applySet (⟨⟨false, false, false, [], []⟩, []⟩ : TState) ["10.0.0.1/32"]) :=
    Star.tail (Star.refl _) (StepG.set _ ["10.0.0.1/32"] rfl)
  exact ⟨by decide, chain,
    single_loop_invariant.2.2.2 ⟨⟨false, false, false, [], []⟩, []⟩ []
      (applySet (⟨⟨false, false, false, [], []⟩, []⟩ : TState) ["10.0.0.1/32"])
      (by decide) chain⟩

/-- Witness for the process-rule claim: a concrete iteration run from a
state with `didProcRule` already set, showing no `Tailscale-Process`
command in the emitted trace. -/
theorem proc_rule_installed_at_most_once_witness :
    loopInv (⟨⟨true, true, false, ["10.0.0.1/32"], []⟩, [LoopPC.top]⟩ : TState)
    ∧ procInv (⟨⟨true, true, false, ["10.0.0.1/32"], []⟩, [LoopPC.top]⟩ : TState)
    ∧ Steps (⟨⟨true, true, false, ["10.0.0.1/32"], []⟩, [LoopPC.top]⟩ : TState)
        [(Cmd.deleteIn, true), (Cmd.addIn "10.0.0.1/32", true)]
        (⟨⟨true, true, true, ["10.0.0.1/32"], ["10.0.0.1/32"]⟩, [LoopPC.top]⟩ : TState)
    ∧ ((⟨⟨true, true, true, ["10.0.0.1/32"], ["10.0.0.1/32"]⟩,
          [LoopPC.top]⟩ : TState).ft.didProcRule = true
       ∧ ∀ b : Bool,
          (Cmd.addProc, b) ∉ [(Cmd.deleteIn, true), (Cmd.addIn "10.0.0.1/32", true)]
          ∧ (Cmd.deleteProc, b) ∉ [(Cmd.deleteIn, true), (Cmd.addIn "10.0.0.1/32", true)]) := by
  have hpi : procInv (⟨⟨true, true, false, ["10.0.0.1/32"], []⟩, [LoopPC.top]⟩ : TState) := by
    intro v c n hm
    simp at hm
  have chain : Steps (⟨⟨true, true, false, ["10.0.0.1/32"], []⟩, [LoopPC.top]⟩ : TState)
      [(Cmd.deleteIn, true), (Cmd.addIn "10.0.0.1/32", true)]
      (⟨⟨true, true, true, ["10.0.0.1/32"], ["10.0.0.1/32"]⟩, [LoopPC.top]⟩ : TState) :=
    Star.tail (Star.tail (Star.refl _) (StepG.check _ [] [] rfl))
      (StepG.body _ [] [] ["10.0.0.1/32"] true false true true true true (fun _ => true)
        rfl (fun hcontra => Bool.noConfusion hcontra))
  exact ⟨by decide, hpi, chain,
    (proc_rule_installed_at_most_once
      ⟨⟨true, true, false, ["10.0.0.1/32"], []⟩, [LoopPC.top]⟩
      [(Cmd.deleteIn, true), (Cmd.addIn "10.0.0.1/32", true)]
      ⟨⟨true, true, true, ["10.0.0.1/32"], ["10.0.0.1/32"]⟩, [LoopPC.top]⟩
      (by decide) hpi chain).1 rfl⟩

/-- Witness for the add-loop claim: its iteration characterization
instantiated on a concrete oracle failing at index 1 and a three-element
list. -/
theorem adds_in_order_stop_at_first_failure_witness :
    ∃ k, k ≤ (["10.0.0.1/32", "10.0.0.2/32", "10.0.0.3/32"] : List String).length ∧
      (runAdds (fun i => decide (i ≠ 1)) 0
        ["10.0.0.1/32", "10.0.0.2/32", "10.0.0.3/32"]).1.map Prod.fst
        = (["10.0.0.1/32", "10.0.0.2/32", "10.0.0.3/32"] : List String).take k ∧
      ((runAdds (fun i => decide (i ≠ 1)) 0
          ["10.0.0.1/32", "10.0.0.2/32", "10.0.0.3/32"]).2 = true ↔
        ∀ j, j < (["10.0.0.1/32", "10.0.0.2/32", "10.0.0.3/32"] : List String).length →
          decide (j ≠ 1) = true) ∧
      ((runAdds (fun i => decide (i ≠ 1)) 0
          ["10.0.0.1/32", "10.0.0.2/32", "10.0.0.3/32"]).2 = true →
        k = (["10.0.0.1/32", "10.0.0.2/32", "10.0.0.3/32"] : List String).length) ∧
      ((runAdds (fun i => decide (i ≠ 1)) 0
          ["10.0.0.1/32", "10.0.0.2/32", "10.0.0.3/32"]).2 = false →
        0 < k ∧ decide (k - 1 ≠ 1) = false ∧ ∀ j, j < k - 1 → decide (j ≠ 1) = true) :=
  adds_in_order_stop_at_first_failure.1 (fun i => decide (i ≠ 1))
    ["10.0.0.1/32", "10.0.0.2/32", "10.0.0.3/32"]

/-- Witness for the killswitch toggle-failure claim: a concrete router with
the killswitch off, a default-route config and a failing `EnableFirewall`. -/
theorem killswitch_toggle_error_flag_updated_witness :
    ((winRouterSet (⟨⟨⟨false, false, false, [], []⟩, []⟩, false, none⟩ : WinRouter)
        (some ⟨[], [⟨"0.0.0.0", 0⟩], ""⟩)
        ⟨none, none, some "enable failed", none⟩).1.wgFirewallEnabled
      = hasDefaultRoute
          (((some ⟨[], [⟨"0.0.0.0", 0⟩], ""⟩) : Option Config).getD shutdownConfig).routes
     ∧ (winRouterSet (⟨⟨⟨false, false, false, [], []⟩, []⟩, false, none⟩ : WinRouter)
        (some ⟨[], [⟨"0.0.0.0", 0⟩], ""⟩)
        ⟨none, none, some "enable failed", none⟩).2.1 = none)
    ∧ REvent.enableFirewall ∉
        (winRouterSet
          (winRouterSet (⟨⟨⟨false, false, false, [], []⟩, []⟩, false, none⟩ : WinRouter)
            (some ⟨[], [⟨"0.0.0.0", 0⟩], ""⟩)
            ⟨none, none, some "enable failed", none⟩).1
          (some ⟨[], [⟨"0.0.0.0", 0⟩], ""⟩) ⟨none, none, none, none⟩).2.2
    ∧ REvent.disableFirewall ∉
        (winRouterSet
          (winRouterSet (⟨⟨⟨false, false, false, [], []⟩, []⟩, false, none⟩ : WinRouter)
            (some ⟨[], [⟨"0.0.0.0", 0⟩], ""⟩)
            ⟨none, none, some "enable failed", none⟩).1
          (some ⟨[], [⟨"0.0.0.0", 0⟩], ""⟩) ⟨none, none, none, none⟩).2.2 :=
  killswitch_toggle_error_flag_updated
    ⟨⟨⟨false, false, false, [], []⟩, []⟩, false, none⟩
    (some ⟨[], [⟨"0.0.0.0", 0⟩], ""⟩)
    ⟨none, none, some "enable failed", none⟩
    ⟨[], [⟨"0.0.0.0", 0⟩], ""⟩
    ⟨none, none, none, none⟩ rfl rfl rfl rfl rfl

/-- Witness for the killswitch idempotence claim: two concrete successful
`Set` calls with identical default-route presence. -/
theorem killswitch_idempotence_after_successful_sets_witness :
    (REvent.enableFirewall ∉
      (winRouterSet
        (winRouterSet (⟨⟨⟨false, false, false, [], []⟩, []⟩, false, none⟩ : WinRouter)
          (some ⟨[], [⟨"0.0.0.0", 0⟩], ""⟩) ⟨none, none, none, none⟩).1
        (some ⟨[], [⟨"0.0.0.0", 0⟩], ""⟩) ⟨none, none, none, none⟩).2.2
     ∧ REvent.disableFirewall ∉
      (winRouterSet
        (winRouterSet (⟨⟨⟨false, false, false, [], []⟩, []⟩, false, none⟩ : WinRouter)
          (some ⟨[], [⟨"0.0.0.0", 0⟩], ""⟩) ⟨none, none, none, none⟩).1
        (some ⟨[], [⟨"0.0.0.0", 0⟩], ""⟩) ⟨none, none, none, none⟩).2.2
     ∧ (winRouterSet
        (winRouterSet (⟨⟨⟨false, false, false, [], []⟩, []⟩, false, none⟩ : WinRouter)
          (some ⟨[], [⟨"0.0.0.0", 0⟩], ""⟩) ⟨none, none, none, none⟩).1
        (some ⟨[], [⟨"0.0.0.0", 0⟩], ""⟩) ⟨none, none, none, none⟩).1.wgFirewallEnabled
       = (winRouterSet (⟨⟨⟨false, false, false, [], []⟩, []⟩, false, none⟩ : WinRouter)
          (some ⟨[], [⟨"0.0.0.0", 0⟩], ""⟩) ⟨none, none, none, none⟩).1.wgFirewallEnabled) :=
  (killswitch_idempotence_after_successful_sets
    ⟨⟨⟨false, false, false, [], []⟩, []⟩, false, none⟩
    ⟨[], [⟨"0.0.0.0", 0⟩], ""⟩ ⟨[], [⟨"0.0.0.0", 0⟩], ""⟩
    ⟨none, none, none, none⟩ ⟨none, none, none, none⟩ rfl rfl rfl rfl rfl).1

/-- Witness for the `Set` control-flow claim: a concrete call with both
collaborators succeeding returns nil. -/
theorem set_control_flow_witness :
    (winRouterSet (⟨⟨⟨false, false, false, [], []⟩, []⟩, false, none⟩ : WinRouter)
      (some ⟨[⟨"10.0.0.1", 32⟩], [], "dns"⟩) ⟨none, none, none, none⟩).2.1 = none :=
  (set_control_flow ⟨⟨⟨false, false, false, [], []⟩, []⟩, false, none⟩
    (some ⟨[⟨"10.0.0.1", 32⟩], [], "dns"⟩) ⟨none, none, none, none⟩).2.2.2.2.2 rfl rfl

/-- Witness for the `Up` claim: a concrete failing subscription on a fresh
router. -/
theorem up_clears_firewall_first_witness :
    (winRouterUp (⟨⟨⟨false, false, false, [], []⟩, []⟩, false, none⟩ : WinRouter)
      (Except.error "sub failed")).2.1 = some "sub failed"
    ∧ (winRouterUp (⟨⟨⟨false, false, false, [], []⟩, []⟩, false, none⟩ : WinRouter)
        (Except.error "sub failed")).1
      = { (⟨⟨⟨false, false, false, [], []⟩, []⟩, false, none⟩ : WinRouter) with
          ftState := ftClear (⟨⟨false, false, false, [], []⟩, []⟩ : TState) } := by
  have h := (up_clears_firewall_first
    ⟨⟨⟨false, false, false, [], []⟩, []⟩, false, none⟩
    (Except.error "sub failed")).2.2.2.1 "sub failed" rfl
  exact ⟨h.1, h.2.2 rfl⟩

end Router

namespace Health

/-- Witness for the status-registry claim: a concrete non-nil-to-nil
transition on a known key fires the registered watcher. -/
theorem set_callback_fires_iff_error_transition_witness :
    (([("router", some "io error")] : List (String × Option Err)).lookup "router"
      = some (some "io error"))
    ∧ ((some "io error" : Option Err).isNone ≠ (none : Option Err).isNone)
    ∧ ((∀ w ∈ [7], (w, "router", (none : Option Err))
          ∈ (set [("router", some "io error")] [7] "router" none).2)
       ∧ (set [("router", some "io error")] [7] "router" none).1.lookup "router"
          = some none) :=
  ⟨by decide, by decide,
    (set_callback_fires_iff_error_transition
      [("router", some "io error")] [7] "router" none).2.2.2
      (some "io error") (by decide) (by decide)⟩

end Health
